import Mathlib

/-!
Shallow embedding of the `frame-tick` crate (`src/lib.rs`).

Machine integers are modelled as unbounded `Int` together with explicit
wrapping at every place the Rust code performs an `as` cast between integer
widths.  Rust's `/` and `%` on signed integers truncate toward zero, so they
are translated as `Int.tdiv` / `Int.tmod`; unsigned Rust division only ever
acts on non-negative values here, where `Int.tdiv` agrees with it.

All `i128` intermediates in the source are products of one `i64` value with
one or two `u32` values (plus a bias below `2 ^ 54`), hence bounded by
`2 ^ 127`; the `i128` arithmetic itself can therefore never wrap and is
translated as exact `Int` arithmetic.  Only the final `as i64` narrowing
casts wrap, which `wrap64` models.
-/

namespace FrameTick

/-- `TICKS_PER_SECOND` (default, non-`low_res` build): 3,603,600. -/
def TICKS_PER_SECOND : Int := 3603600

/-- Largest `i64` value. -/
def maxI64 : Int := 9223372036854775807

/-- Smallest `i64` value. -/
def minI64 : Int := -9223372036854775808

/-- The `as i64` narrowing cast: wrap into `[-2^63, 2^63)`. -/
def wrap64 (x : Int) : Int :=
  (x + 9223372036854775808) % 18446744073709551616 - 9223372036854775808

/-- `FrameRate { num: NonZeroU32, den: NonZeroU32 }`.  The `NonZeroU32`
invariants (`0 < num < 2^32`, `0 < den < 2^32`) are carried as hypotheses of
the theorems instead of being baked into the structure. -/
structure FrameRate where
  num : Int
  den : Int

/-- `FrameRate::new(num, den)`: `None` iff either `NonZeroU32::new` fails,
i.e. iff either argument is zero. -/
def FrameRate.new (num den : Int) : Option FrameRate :=
  if num = 0 then none
  else if den = 0 then none
  else some ⟨num, den⟩

/-- `FrameRate::NTSC` = 30000/1001. -/
def FrameRate.NTSC : FrameRate := ⟨30000, 1001⟩

/-- `FrameRate::FILM` = 24/1. -/
def FrameRate.FILM : FrameRate := ⟨24, 1⟩

/-- The nominal fps used for h:m:s:f display:
`(num as i64 + den as i64 - 1) / den as i64` (ceiling of `num/den`). -/
def nominalFps (fr : FrameRate) : Int :=
  (fr.num + fr.den - 1).tdiv fr.den

/-- `let divisor = TICKS_PER_SECOND as i128 * frame_rate.den() as i128`. -/
def divisor (fr : FrameRate) : Int := TICKS_PER_SECOND * fr.den

/-- The `total_frames` computed at the top of `Tick::to_timecode`:
`((self.0 as i128 * num as i128 + divisor / 2) / divisor) as i64`. -/
def totalFrames (t : Int) (fr : FrameRate) : Int :=
  wrap64 ((t * fr.num + (divisor fr).tdiv 2).tdiv (divisor fr))

/-- `Tick::to_timecode(self, frame_rate) -> (hours, minutes, seconds, frames)`.
The `%` / `/` chain runs on `i64`, where it cannot overflow once
`total_frames` is an `i64` and `nominal_fps` is positive. -/
def to_timecode (t : Int) (fr : FrameRate) : Int × Int × Int × Int :=
  let total_frames := totalFrames t fr
  let nominal_fps := nominalFps fr
  let frames := total_frames.tmod nominal_fps
  let total_seconds := total_frames.tdiv nominal_fps
  let seconds := total_seconds.tmod 60
  let total_minutes := total_seconds.tdiv 60
  let minutes := total_minutes.tmod 60
  let hours := total_minutes.tdiv 60
  (hours, minutes, seconds, frames)

/-- `Tick::from_timecode(hours, minutes, seconds, frames, frame_rate)`.
The `total_frames` sum is `i64` arithmetic; since `wrap64` is a ring
homomorphism modulo `2 ^ 64`, wrapping each intermediate `+`/`*` equals one
wrap of the exact sum.  The final `i128` product/division is exact, then
cast `as i64`. -/
def from_timecode (hours minutes seconds frames : Int) (fr : FrameRate) : Int :=
  let nominal_fps := nominalFps fr
  let total_frames :=
    wrap64 (hours * 3600 * nominal_fps + minutes * 60 * nominal_fps
      + seconds * nominal_fps + frames)
  wrap64 ((total_frames * TICKS_PER_SECOND * fr.den).tdiv fr.num)

/-- `<Tick as FrameRateConversion<FramesPerSec>>::to_frames`:
`(self.0 as i128 * rate as i128 / TICKS_PER_SECOND as i128) as i64`. -/
def to_frames (t : Int) (r : Int) : Int :=
  wrap64 ((t * r).tdiv TICKS_PER_SECOND)

/-- `<Tick as FrameRateConversion<FramesPerSec>>::from_frames`:
`(frames as i128 * TICKS_PER_SECOND as i128 / rate as i128) as i64`. -/
def from_frames (n : Int) (r : Int) : Int :=
  wrap64 ((n * TICKS_PER_SECOND).tdiv r)

/-- Wrap into an unsigned `bits`-bit integer's range `[0, 2^bits)`. -/
def uwrap (bits : Nat) (x : Int) : Int := x % 2 ^ bits

/-- Wrap into a signed `bits`-bit integer's range `[-2^(bits-1), 2^(bits-1))`. -/
def swrap (bits : Nat) (x : Int) : Int :=
  (x + 2 ^ (bits - 1)) % 2 ^ bits - 2 ^ (bits - 1)

/-- The Rust `as` cast of an integer into the scalar type described by
`signed`/`bits`. -/
def icast (signed : Bool) (bits : Nat) (x : Int) : Int :=
  if signed then swrap bits x else uwrap bits x

/-- `impl Mul<$ty> for Tick` from `impl_mul_div_int!`:
`Self((self.0 as $ty * rhs) as _)`.  The in-type multiplication wraps
(release-mode semantics, the overflow policy the crate documents). -/
def tickMulScalar (signed : Bool) (bits : Nat) (t k : Int) : Int :=
  wrap64 (icast signed bits (icast signed bits t * k))

/-- `impl Div<$ty> for Tick` from `impl_mul_div_int!`:
`Self((self.0 as $ty / rhs) as _)`.  The inner `icast` of the quotient is
the identity whenever Rust's in-type division does not overflow (it only
can at signed `MIN / -1`, where Rust panics). -/
def tickDivScalar (signed : Bool) (bits : Nat) (t k : Int) : Int :=
  wrap64 (icast signed bits ((icast signed bits t).tdiv k))

/-- `TickIter::next` as a state transformer on the raw `i64` position:
returns the emitted item and the new state. -/
def tickIterNext (s : Int) : Option Int × Int :=
  if s = maxI64 then (none, s) else (some s, wrap64 (s + 1))

/-- `TickRevIter::next`: decrements first (`self.0 -= 1`, wrapping), then
tests the decremented position against `i64::MIN`. -/
def tickRevIterNext (s : Int) : Option Int × Int :=
  let s2 := wrap64 (s - 1)
  if s2 = minI64 then (none, s2) else (some s, s2)

/-- `<TickIter as DoubleEndedIterator>::next_back`: tests against `i64::MIN`
first, then decrements and yields the decremented position. -/
def tickIterNextBack (s : Int) : Option Int × Int :=
  if s = minI64 then (none, s) else (some (wrap64 (s - 1)), wrap64 (s - 1))

/-- State of `TickIter` after `k` calls to `next`, starting from `v`. -/
def fwdState (v : Int) : Nat → Int
  | 0 => v
  | k + 1 => (tickIterNext (fwdState v k)).2

/-- Item produced by the `(k+1)`-th call to `TickIter::next` from `v`. -/
def fwdOut (v : Int) (k : Nat) : Option Int := (tickIterNext (fwdState v k)).1

/-- State of `TickRevIter` after `k` calls to `next`, starting from `v`. -/
def revState (v : Int) : Nat → Int
  | 0 => v
  | k + 1 => (tickRevIterNext (revState v k)).2

/-- Item produced by the `(k+1)`-th call to `TickRevIter::next` from `v`. -/
def revOut (v : Int) (k : Nat) : Option Int := (tickRevIterNext (revState v k)).1

/-- State of `TickIter` after `k` calls to `next_back`, starting from `v`. -/
def backState (v : Int) : Nat → Int
  | 0 => v
  | k + 1 => (tickIterNextBack (backState v k)).2

/-- Item produced by the `(k+1)`-th call to `next_back` from `v`. -/
def backOut (v : Int) (k : Nat) : Option Int :=
  (tickIterNextBack (backState v k)).1

/-- Modelled from the spec's words (§4.5) for comparison with `totalFrames`:
the nearest integer to the rational `a / b` (`b > 0`), with ties rounded
away from zero. -/
def nearestTiesAway (a b : Int) : Int :=
  if 0 ≤ a then (2 * a + b).tdiv (2 * b) else -((2 * (-a) + b).tdiv (2 * b))

end FrameTick

namespace FrameTick

/-! ## Helper lemmas -/

/-- The `as i64` cast is the identity on values already in `i64` range. -/
theorem wrap64_eq {x : Int} (h1 : minI64 ≤ x) (h2 : x ≤ maxI64) : wrap64 x = x := by
  unfold wrap64
  unfold minI64 at h1
  unfold maxI64 at h2
  rw [Int.emod_eq_of_lt (by omega) (by omega)]
  omega

/-- The unsigned in-type cast is the identity on in-range values. -/
theorem uwrap_eq {bits : Nat} {x : Int} (h1 : 0 ≤ x) (h2 : x < 2 ^ bits) :
    uwrap bits x = x :=
  Int.emod_eq_of_lt h1 h2

/-- The signed in-type cast is the identity on in-range values. -/
theorem swrap_eq {bits : Nat} {x : Int} (hb : 1 ≤ bits)
    (h1 : -(2 ^ (bits - 1)) ≤ x) (h2 : x < 2 ^ (bits - 1)) : swrap bits x = x := by
  unfold swrap
  have hp : (2 : Int) ^ bits = 2 ^ (bits - 1) * 2 := by
    rw [← pow_succ]
    congr 1
    omega
  have hpos : (0 : Int) < 2 ^ (bits - 1) := pow_pos (by norm_num) _
  rw [Int.emod_eq_of_lt (by omega) (by omega)]
  omega

/-- The nominal fps is positive for a positive rational rate. -/
theorem nominalFps_pos (fr : FrameRate) (hn : 0 < fr.num) (hd : 0 < fr.den) :
    0 < nominalFps fr := by
  unfold nominalFps
  rw [Int.tdiv_eq_ediv (by omega) (by omega)]
  have h1 := Int.ediv_add_emod (fr.num + fr.den - 1) fr.den
  have h2 := Int.emod_nonneg (fr.num + fr.den - 1) (by omega : fr.den ≠ 0)
  have h3 := Int.emod_lt_of_pos (fr.num + fr.den - 1) hd
  nlinarith [h1, h2, h3]

/-- The nominal fps is the ceiling of `num / den`. -/
theorem nominalFps_ceil (fr : FrameRate) (hn : 0 < fr.num) (hd : 0 < fr.den) :
    fr.den * (nominalFps fr - 1) < fr.num ∧ fr.num ≤ fr.den * nominalFps fr := by
  unfold nominalFps
  rw [Int.tdiv_eq_ediv (by omega) (by omega)]
  have h1 := Int.ediv_add_emod (fr.num + fr.den - 1) fr.den
  have h2 := Int.emod_nonneg (fr.num + fr.den - 1) (by omega : fr.den ≠ 0)
  have h3 := Int.emod_lt_of_pos (fr.num + fr.den - 1) hd
  constructor <;> nlinarith [h1, h2, h3]

/-- Quotient/remainder recovery for a non-negative truncating division by a
positive divisor. -/
theorem tdiv_tmod_split (q c b : Int) (hb : 0 < b) (hq : 0 ≤ q)
    (hc0 : 0 ≤ c) (hc1 : c < b) :
    (q * b + c).tdiv b = q ∧ (q * b + c).tmod b = c := by
  have hqb : 0 ≤ q * b := mul_nonneg hq hb.le
  have h0 : 0 ≤ q * b + c := by omega
  constructor
  · rw [Int.tdiv_eq_ediv h0 hb.le, add_comm,
      Int.add_mul_ediv_right _ _ (by omega : b ≠ 0),
      Int.ediv_eq_zero_of_lt hc0 hc1, zero_add]
  · rw [Int.tmod_eq_emod h0 hb.le, add_comm, Int.add_mul_emod_self,
      Int.emod_eq_of_lt hc0 hc1]

/-- Core arithmetic of the timecode round trip: truncating a non-negative
frame total to ticks and back, with the `+ divisor/2` bias, recovers the
total exactly as long as the rate's numerator is at most `divisor/2 + 1`. -/
theorem exact_division_recovery (T num D : Int)
    (hT : 0 ≤ T) (hnum : 0 < num) (hD : 0 < D) (hD2 : 2 ∣ D)
    (hrate : num - 1 ≤ D / 2) :
    ((T * D).tdiv num * num + D.tdiv 2).tdiv D = T := by
  have e2 : D.tdiv 2 = D / 2 := Int.tdiv_eq_ediv hD.le (by norm_num)
  have hTD : 0 ≤ T * D := mul_nonneg hT hD.le
  have hq : (T * D).tdiv num = T * D / num := Int.tdiv_eq_ediv hTD hnum.le
  have hr0 : 0 ≤ T * D % num := Int.emod_nonneg _ (by omega)
  have hr1 : T * D % num < num := Int.emod_lt_of_pos _ hnum
  have hqr := Int.ediv_add_emod (T * D) num
  have hq' : (T * D).tdiv num * num = T * D - T * D % num := by
    rw [hq]
    have hcomm : T * D / num * num = num * (T * D / num) := mul_comm _ _
    linarith [hqr, hcomm]
  have hDhalf : D / 2 * 2 = D := Int.ediv_mul_cancel hD2
  have hhalf0 : 0 ≤ D / 2 := Int.ediv_nonneg hD.le (by norm_num)
  have goal_eq : (T * D).tdiv num * num + D.tdiv 2
      = (D / 2 - T * D % num) + T * D := by
    rw [hq', e2]
    ring
  rw [goal_eq]
  have hX0 : 0 ≤ D / 2 - T * D % num := by omega
  have hXD : D / 2 - T * D % num < D := by omega
  rw [Int.tdiv_eq_ediv (by omega) hD.le,
    Int.add_mul_ediv_right _ _ (by omega : D ≠ 0),
    Int.ediv_eq_zero_of_lt hX0 hXD, zero_add]




/-! ## Claim theorems -/

/-- C7: for all `u32` arguments `num` and `den`, `FrameRate::new(num, den)`
returns `None` iff `num == 0` or `den == 0` (and never panics: the
embedding is a total function), and on success the accessors return exactly
the arguments given. -/
theorem frameRate_new_spec (num den : Int) (h1 : 0 ≤ num) (h2 : num < 4294967296)
    (h3 : 0 ≤ den) (h4 : den < 4294967296) :
    (FrameRate.new num den = none ↔ num = 0 ∨ den = 0) ∧
    (∀ fr : FrameRate, FrameRate.new num den = some fr →
      fr.num = num ∧ fr.den = den) := by
  unfold FrameRate.new
  constructor
  · by_cases hn : num = 0
    · simp [hn]
    · by_cases hd : den = 0 <;> simp [hn, hd]
  · intro fr hfr
    by_cases hn : num = 0
    · simp [hn] at hfr
    · by_cases hd : den = 0
      · simp [hn, hd] at hfr
      · simp [hn, hd] at hfr
        cases hfr
        exact ⟨rfl, rfl⟩

/-- C7 witness: concrete instances of `frameRate_new_spec`. -/
theorem frameRate_new_spec_witness :
    FrameRate.new 0 1001 = none ∧
    (∀ fr : FrameRate, FrameRate.new 30000 1001 = some fr →
      fr.num = 30000 ∧ fr.den = 1001) :=
  ⟨(frameRate_new_spec 0 1001 (by decide) (by decide) (by decide)
      (by decide)).1.mpr (Or.inl rfl),
    (frameRate_new_spec 30000 1001 (by decide) (by decide) (by decide)
      (by decide)).2⟩

/-- C2: for a positive integer rate `r` dividing `TICKS_PER_SECOND` and a
frame index `n` whose tick value `n * TICKS_PER_SECOND / r` fits in `i64`,
`Tick::from_frames(n, r).to_frames(r) == n` and re-converting the frame
count reproduces the same tick. -/
theorem frames_round_trip (n r : Int) (hr : 0 < r) (hdvd : r ∣ TICKS_PER_SECOND)
    (hn1 : minI64 ≤ n) (hn2 : n ≤ maxI64)
    (ht1 : minI64 ≤ (n * TICKS_PER_SECOND).tdiv r)
    (ht2 : (n * TICKS_PER_SECOND).tdiv r ≤ maxI64) :
    to_frames (from_frames n r) r = n ∧
      from_frames (to_frames (from_frames n r) r) r = from_frames n r := by
  have hdvd' : r ∣ n * TICKS_PER_SECOND := Dvd.dvd.mul_left hdvd n
  have htps : r ∣ TICKS_PER_SECOND := hdvd
  have key : to_frames (from_frames n r) r = n := by
    unfold from_frames to_frames
    rw [wrap64_eq ht1 ht2]
    rw [Int.tdiv_eq_ediv_of_dvd hdvd', Int.mul_ediv_assoc n htps, mul_assoc,
      Int.ediv_mul_cancel htps]
    rw [Int.tdiv_eq_ediv_of_dvd ⟨n, mul_comm n TICKS_PER_SECOND⟩,
      Int.mul_ediv_cancel n (by decide : TICKS_PER_SECOND ≠ 0)]
    exact wrap64_eq hn1 hn2
  exact ⟨key, by rw [key]⟩

/-- C2 witness: 120 frames at 24 fps round-trip. -/
theorem frames_round_trip_witness :
    to_frames (from_frames 120 24) 24 = 120 :=
  (frames_round_trip 120 24 (by decide) (by decide) (by decide) (by decide)
    (by decide) (by decide)).1

/-- C3 counterexample: the claim fails at `Tick(-1) / 2u64`.  The code casts
the raw value into the scalar's type first, so the unsigned 64-bit division
yields `i64::MAX` instead of the exact truncating quotient `0`. -/
theorem tick_scalar_div_cex :
    tickDivScalar false 64 (-1) 2 = 9223372036854775807 ∧
    Int.tdiv (-1) 2 = 0 := by
  constructor
  · decide
  · decide

/-- C3 (amended): `t * k` and `t / k` are computed inside the scalar's own
type after casting the raw value into it; they agree with exact integer
multiplication and exact truncating division precisely on inputs where all
the involved casts are lossless (raw value, scalar, and result each
representable in the scalar's type and the result in `i64`). -/
theorem tick_scalar_mul_div (signed : Bool) (bits : Nat) (t k : Int)
    (hk : k ≠ 0)
    (ht : icast signed bits t = t)
    (hm : icast signed bits (t * k) = t * k)
    (hm1 : minI64 ≤ t * k) (hm2 : t * k ≤ maxI64)
    (hd : icast signed bits (t.tdiv k) = t.tdiv k)
    (hd1 : minI64 ≤ t.tdiv k) (hd2 : t.tdiv k ≤ maxI64) :
    tickMulScalar signed bits t k = t * k ∧
    tickDivScalar signed bits t k = t.tdiv k := by
  unfold tickMulScalar tickDivScalar
  rw [ht, hm, hd, wrap64_eq hm1 hm2, wrap64_eq hd1 hd2]
  exact ⟨rfl, rfl⟩

/-- C3 witness: `Tick(10) * 3i8 = Tick(30)` and `Tick(10) / 3i8 = Tick(3)`. -/
theorem tick_scalar_mul_div_witness :
    tickMulScalar true 8 10 3 = 30 ∧ tickDivScalar true 8 10 3 = 3 := by
  have h := tick_scalar_mul_div true 8 10 3 (by decide) (by decide) (by decide)
    (by decide) (by decide) (by decide) (by decide) (by decide)
  exact ⟨h.1.trans (by decide), h.2.trans (by decide)⟩

/-- C4 counterexample: at `Tick(-3603600)` and rate 1/1 the exact value is
the integer `-1` (one frame before the origin), yet the code computes
`total_frames = 0`: the `+divisor/2` bias followed by truncation toward
zero is not nearest-rounding for negative values. -/
theorem totalFrames_nearest_cex :
    totalFrames (-3603600) ⟨1, 1⟩ = 0 ∧
    nearestTiesAway ((-3603600) * 1) (divisor ⟨1, 1⟩) = -1 := by
  constructor
  · decide
  · decide

/-- C4 (amended): for `t.raw() ≥ 0` (and a result that fits in `i64`), the
`total_frames` used by `to_timecode` is the nearest integer to
`raw * num / (TICKS_PER_SECOND * den)` with ties rounded away from zero. -/
theorem totalFrames_nearest (t : Int) (fr : FrameRate)
    (ht : 0 ≤ t) (hn : 0 < fr.num) (hd : 0 < fr.den)
    (hof : (t * fr.num + (divisor fr).tdiv 2).tdiv (divisor fr) ≤ maxI64) :
    totalFrames t fr = nearestTiesAway (t * fr.num) (divisor fr) := by
  have hD : 0 < divisor fr := by
    unfold divisor TICKS_PER_SECOND
    positivity
  have hD2 : 2 ∣ divisor fr := ⟨1801800 * fr.den, by unfold divisor TICKS_PER_SECOND; ring⟩
  have ha : 0 ≤ t * fr.num := mul_nonneg ht hn.le
  have e2 : (divisor fr).tdiv 2 = divisor fr / 2 := Int.tdiv_eq_ediv hD.le (by norm_num)
  have hhalf : 2 * (divisor fr / 2) = divisor fr := Int.mul_ediv_cancel' hD2
  have hval0 : 0 ≤ (t * fr.num + (divisor fr).tdiv 2).tdiv (divisor fr) := by
    refine Int.tdiv_nonneg ?_ hD.le
    rw [e2]
    have : 0 ≤ divisor fr / 2 := Int.ediv_nonneg hD.le (by norm_num)
    omega
  unfold totalFrames
  rw [wrap64_eq (le_trans (by decide) hval0) hof]
  unfold nearestTiesAway
  rw [if_pos ha, e2]
  rw [Int.tdiv_eq_ediv (by positivity) hD.le,
    Int.tdiv_eq_ediv (by positivity) (by positivity)]
  have hrw1 : 2 * (t * fr.num) + divisor fr = 2 * (t * fr.num + divisor fr / 2) := by
    omega
  have hrw2 : 2 * divisor fr = 2 * divisor fr := rfl
  rw [hrw1, Int.mul_ediv_mul_of_pos _ _ (by norm_num : (0:Int) < 2)]

/-- C4 witness: the exact tie `0.5` frames at rate 1/1 rounds up to 1. -/
theorem totalFrames_nearest_witness :
    totalFrames 1801800 ⟨1, 1⟩ = nearestTiesAway (1801800 * 1) (divisor ⟨1, 1⟩) ∧
    totalFrames 1801800 ⟨1, 1⟩ = 1 :=
  ⟨totalFrames_nearest 1801800 ⟨1, 1⟩ (by decide) (by decide) (by decide)
    (by decide), by decide⟩


/-- C1 counterexample: at the valid rate 7207200/1 (a legal `FrameRate`)
the valid tuple `(0,0,0,1)` does not round-trip: one frame is less than
half a tick, so `from_timecode` truncates it to tick 0 and `to_timecode`
returns `(0,0,0,0)`. -/
theorem timecode_round_trip_cex :
    (0:Int) ≤ 1 ∧ (1:Int) < nominalFps ⟨7207200, 1⟩ ∧
    to_timecode (from_timecode 0 0 0 1 ⟨7207200, 1⟩) ⟨7207200, 1⟩ ≠ (0, 0, 0, 1) :=
  ⟨by decide, by decide, by decide⟩

/-- C1 (amended): the timecode round trip
`to_timecode(from_timecode(h,m,s,f,rate), rate) = (h,m,s,f)` holds for all
valid non-negative tuples (`0 ≤ h`, `0 ≤ m,s < 60`, `0 ≤ f < nominal_fps`)
at rates whose numerator is at most `TICKS_PER_SECOND * den / 2 + 1`,
provided the intermediate frame total and tick value fit in `i64`. -/
theorem timecode_round_trip (h m s f : Int) (fr : FrameRate)
    (hn : 0 < fr.num) (hd : 0 < fr.den)
    (hrate : 2 * (fr.num - 1) ≤ TICKS_PER_SECOND * fr.den)
    (hh : 0 ≤ h) (hm0 : 0 ≤ m) (hm1 : m < 60)
    (hs0 : 0 ≤ s) (hs1 : s < 60)
    (hf0 : 0 ≤ f) (hf1 : f < nominalFps fr)
    (hT : h * 3600 * nominalFps fr + m * 60 * nominalFps fr
        + s * nominalFps fr + f ≤ maxI64)
    (htick : ((h * 3600 * nominalFps fr + m * 60 * nominalFps fr
          + s * nominalFps fr + f) * TICKS_PER_SECOND * fr.den).tdiv fr.num
        ≤ maxI64) :
    to_timecode (from_timecode h m s f fr) fr = (h, m, s, f) := by
  have hnfpos : 0 < nominalFps fr := nominalFps_pos fr hn hd
  have hT0 : 0 ≤ h * 3600 * nominalFps fr + m * 60 * nominalFps fr
      + s * nominalFps fr + f := by
    have a1 : 0 ≤ h * 3600 * nominalFps fr :=
      mul_nonneg (mul_nonneg hh (by norm_num)) hnfpos.le
    have a2 : 0 ≤ m * 60 * nominalFps fr :=
      mul_nonneg (mul_nonneg hm0 (by norm_num)) hnfpos.le
    have a3 : 0 ≤ s * nominalFps fr := mul_nonneg hs0 hnfpos.le
    omega
  have hTD0 : 0 ≤ (h * 3600 * nominalFps fr + m * 60 * nominalFps fr
      + s * nominalFps fr + f) * TICKS_PER_SECOND * fr.den :=
    mul_nonneg (mul_nonneg hT0 (by decide)) hd.le
  have htick0 : 0 ≤ ((h * 3600 * nominalFps fr + m * 60 * nominalFps fr
      + s * nominalFps fr + f) * TICKS_PER_SECOND * fr.den).tdiv fr.num :=
    Int.tdiv_nonneg hTD0 hn.le
  have hfrom : from_timecode h m s f fr =
      ((h * 3600 * nominalFps fr + m * 60 * nominalFps fr
        + s * nominalFps fr + f) * TICKS_PER_SECOND * fr.den).tdiv fr.num := by
    simp only [from_timecode]
    rw [wrap64_eq (le_trans (by decide) hT0) hT]
    exact wrap64_eq (le_trans (by decide) htick0) htick
  have hD : 0 < divisor fr := by
    unfold divisor TICKS_PER_SECOND
    positivity
  have hD2 : 2 ∣ divisor fr :=
    ⟨1801800 * fr.den, by unfold divisor TICKS_PER_SECOND; ring⟩
  have hhalf : 2 * (divisor fr / 2) = divisor fr := Int.mul_ediv_cancel' hD2
  have hrate' : fr.num - 1 ≤ divisor fr / 2 := by
    unfold divisor TICKS_PER_SECOND at *
    omega
  have key := exact_division_recovery
    (h * 3600 * nominalFps fr + m * 60 * nominalFps fr + s * nominalFps fr + f)
    fr.num (divisor fr) hT0 hn hD hD2 hrate'
  have hTF : totalFrames (((h * 3600 * nominalFps fr + m * 60 * nominalFps fr
        + s * nominalFps fr + f) * TICKS_PER_SECOND * fr.den).tdiv fr.num) fr
      = h * 3600 * nominalFps fr + m * 60 * nominalFps fr
        + s * nominalFps fr + f := by
    unfold totalFrames
    have hassoc : (h * 3600 * nominalFps fr + m * 60 * nominalFps fr
          + s * nominalFps fr + f) * TICKS_PER_SECOND * fr.den
        = (h * 3600 * nominalFps fr + m * 60 * nominalFps fr
          + s * nominalFps fr + f) * divisor fr := by
      unfold divisor
      ring
    rw [hassoc, key]
    exact wrap64_eq (le_trans (by decide) hT0) hT
  rw [hfrom]
  simp only [to_timecode]
  rw [hTF]
  have hTform : h * 3600 * nominalFps fr + m * 60 * nominalFps fr
      + s * nominalFps fr + f = ((h * 60 + m) * 60 + s) * nominalFps fr + f := by
    ring
  rw [hTform]
  obtain ⟨e1, e2⟩ := tdiv_tmod_split ((h * 60 + m) * 60 + s) f (nominalFps fr)
    hnfpos (by omega) hf0 hf1
  rw [e1, e2]
  obtain ⟨e3, e4⟩ := tdiv_tmod_split (h * 60 + m) s 60 (by norm_num)
    (by omega) hs0 hs1
  rw [e3, e4]
  obtain ⟨e5, e6⟩ := tdiv_tmod_split h m 60 (by norm_num) hh hm0 hm1
  rw [e5, e6]

/-- C1 witness: the spec's NTSC example `(1,30,45,15)` at 30000/1001
round-trips exactly. -/
theorem timecode_round_trip_witness :
    to_timecode (from_timecode 1 30 45 15 FrameRate.NTSC) FrameRate.NTSC
      = (1, 30, 45, 15) :=
  timecode_round_trip 1 30 45 15 FrameRate.NTSC (by decide) (by decide)
    (by decide) (by decide) (by decide) (by decide) (by decide) (by decide)
    (by decide) (by decide) (by decide) (by decide)


/-- C9 counterexample: at `Tick(i64::MAX)` and the legal rate 4294967295/1
the 128-bit `total_frames` overflows the `as i64` narrowing and wraps
negative, so the displayed frames field is negative. -/
theorem to_timecode_ranges_cex :
    (0:Int) ≤ maxI64 ∧ (to_timecode maxI64 ⟨4294967295, 1⟩).2.2.2 < 0 :=
  ⟨by decide, by decide⟩

/-- C9 (amended): for `t.raw() ≥ 0` and any positive rational rate such
that the computed frame total fits in `i64`, `to_timecode` returns
`0 ≤ f < nominal_fps`, `0 ≤ s < 60`, `0 ≤ m < 60`, `h ≥ 0`, where
`nominal_fps` is the ceiling of `num/den`. -/
theorem to_timecode_ranges (t : Int) (fr : FrameRate)
    (ht : 0 ≤ t) (hn : 0 < fr.num) (hd : 0 < fr.den)
    (hof : (t * fr.num + (divisor fr).tdiv 2).tdiv (divisor fr) ≤ maxI64) :
    0 ≤ (to_timecode t fr).2.2.2 ∧ (to_timecode t fr).2.2.2 < nominalFps fr ∧
    0 ≤ (to_timecode t fr).2.2.1 ∧ (to_timecode t fr).2.2.1 < 60 ∧
    0 ≤ (to_timecode t fr).2.1 ∧ (to_timecode t fr).2.1 < 60 ∧
    0 ≤ (to_timecode t fr).1 ∧
    fr.den * (nominalFps fr - 1) < fr.num ∧ fr.num ≤ fr.den * nominalFps fr := by
  have hnfpos : 0 < nominalFps fr := nominalFps_pos fr hn hd
  have hD : 0 < divisor fr := by
    unfold divisor TICKS_PER_SECOND
    positivity
  have hhalf0 : 0 ≤ (divisor fr).tdiv 2 := Int.tdiv_nonneg hD.le (by norm_num)
  have hA0 : 0 ≤ (t * fr.num + (divisor fr).tdiv 2).tdiv (divisor fr) := by
    refine Int.tdiv_nonneg ?_ hD.le
    have := mul_nonneg ht hn.le
    omega
  have hTF0 : 0 ≤ totalFrames t fr := by
    unfold totalFrames
    rw [wrap64_eq (le_trans (by decide) hA0) hof]
    exact hA0
  have hts0 : 0 ≤ (totalFrames t fr).tdiv (nominalFps fr) :=
    Int.tdiv_nonneg hTF0 hnfpos.le
  have htm0 : 0 ≤ ((totalFrames t fr).tdiv (nominalFps fr)).tdiv 60 :=
    Int.tdiv_nonneg hts0 (by norm_num)
  refine ⟨?_, ?_, ?_, ?_, ?_, ?_, ?_,
    (nominalFps_ceil fr hn hd).1, (nominalFps_ceil fr hn hd).2⟩
  · show 0 ≤ (totalFrames t fr).tmod (nominalFps fr)
    rw [Int.tmod_eq_emod hTF0 hnfpos.le]
    exact Int.emod_nonneg _ (by omega)
  · show (totalFrames t fr).tmod (nominalFps fr) < nominalFps fr
    rw [Int.tmod_eq_emod hTF0 hnfpos.le]
    exact Int.emod_lt_of_pos _ hnfpos
  · show 0 ≤ ((totalFrames t fr).tdiv (nominalFps fr)).tmod 60
    rw [Int.tmod_eq_emod hts0 (by norm_num)]
    exact Int.emod_nonneg _ (by norm_num)
  · show ((totalFrames t fr).tdiv (nominalFps fr)).tmod 60 < 60
    rw [Int.tmod_eq_emod hts0 (by norm_num)]
    exact Int.emod_lt_of_pos _ (by norm_num)
  · show 0 ≤ (((totalFrames t fr).tdiv (nominalFps fr)).tdiv 60).tmod 60
    rw [Int.tmod_eq_emod htm0 (by norm_num)]
    exact Int.emod_nonneg _ (by norm_num)
  · show (((totalFrames t fr).tdiv (nominalFps fr)).tdiv 60).tmod 60 < 60
    rw [Int.tmod_eq_emod htm0 (by norm_num)]
    exact Int.emod_lt_of_pos _ (by norm_num)
  · show 0 ≤ (((totalFrames t fr).tdiv (nominalFps fr)).tdiv 60).tdiv 60
    exact Int.tdiv_nonneg htm0 (by norm_num)

/-- C9 witness: one frame at 24 fps displays as `(0, 0, 0, 1)`, within all
the claimed ranges. -/
theorem to_timecode_ranges_witness :
    0 ≤ (to_timecode 150150 FrameRate.FILM).2.2.2 ∧
    (to_timecode 150150 FrameRate.FILM).2.2.2 < nominalFps FrameRate.FILM ∧
    0 ≤ (to_timecode 150150 FrameRate.FILM).2.2.1 ∧
    (to_timecode 150150 FrameRate.FILM).2.2.1 < 60 ∧
    0 ≤ (to_timecode 150150 FrameRate.FILM).2.1 ∧
    (to_timecode 150150 FrameRate.FILM).2.1 < 60 ∧
    0 ≤ (to_timecode 150150 FrameRate.FILM).1 ∧
    FrameRate.FILM.den * (nominalFps FrameRate.FILM - 1) < FrameRate.FILM.num ∧
    FrameRate.FILM.num ≤ FrameRate.FILM.den * nominalFps FrameRate.FILM :=
  to_timecode_ranges 150150 FrameRate.FILM (by decide) (by decide) (by decide)
    (by decide)

/-- The forward iterator's state after `k` steps saturates at `i64::MAX`. -/
theorem fwdState_eq (v : Int) (h1 : minI64 ≤ v) (h2 : v ≤ maxI64) (k : Nat) :
    fwdState v k = min (v + k) maxI64 := by
  induction k with
  | zero =>
    simp only [fwdState, Nat.cast_zero, add_zero]
    omega
  | succ k ih =>
    rw [fwdState, ih]
    unfold tickIterNext
    rcases le_or_lt maxI64 (v + (k : Int)) with hge | hlt
    · rw [if_pos (by omega)]
      show min (v + (k : Int)) maxI64 = _
      push_cast
      omega
    · rw [if_neg (by omega)]
      show wrap64 (min (v + (k : Int)) maxI64 + 1) = _
      rw [wrap64_eq (by omega) (by omega)]
      push_cast
      omega

/-- The reverse iterator's state decreases by one each step (until the
wrap at `i64::MIN`, which the hypothesis excludes). -/
theorem revState_eq (v : Int) (h2 : v ≤ maxI64) :
    ∀ k : Nat, minI64 ≤ v - k → revState v k = v - k := by
  intro k
  induction k with
  | zero =>
    intro _
    simp only [revState, Nat.cast_zero, sub_zero]
  | succ k ih =>
    intro hk
    have hk' : minI64 ≤ v - (k : Int) := by push_cast at hk ⊢; omega
    rw [revState, ih hk']
    unfold tickRevIterNext
    show (if wrap64 (v - (k : Int) - 1) = minI64 then _
      else ((some (v - (k : Int)) : Option Int), wrap64 (v - (k : Int) - 1))).2
        = v - ((k : Nat) + 1 : Nat)
    rw [wrap64_eq (by push_cast at hk ⊢; omega) (by omega)]
    split
    · push_cast
      omega
    · show v - (k : Int) - 1 = _
      push_cast
      omega

/-- The back-iteration state after `k` steps saturates at `i64::MIN`. -/
theorem backState_eq (v : Int) (h1 : minI64 ≤ v) (h2 : v ≤ maxI64) (k : Nat) :
    backState v k = max (v - k) minI64 := by
  induction k with
  | zero =>
    simp only [backState, Nat.cast_zero, sub_zero]
    omega
  | succ k ih =>
    rw [backState, ih]
    unfold tickIterNextBack
    rcases le_or_lt (v - (k : Int)) minI64 with hle | hgt
    · rw [if_pos (by omega)]
      show max (v - (k : Int)) minI64 = _
      push_cast
      omega
    · rw [if_neg (by omega)]
      show wrap64 (max (v - (k : Int)) minI64 - 1) = _
      rw [wrap64_eq (by omega) (by omega)]
      push_cast
      omega

/-- C8 counterexample: starting the reverse sequence at `i64::MIN + 1`, the
very first call yields no value at all, although the claim says the
sequence yields counts starting at that value and only terminates upon
reaching `i64::MIN` (and `i64::MIN + 1 ≠ i64::MIN`). -/
theorem iter_sequences_cex :
    minI64 + 1 ≠ minI64 ∧ revOut (minI64 + 1) 0 = none :=
  ⟨by decide, by decide⟩

/-- C8 (amended): the forward sequence from `v` yields `v, v+1, ...` and
returns no value exactly once the position reaches `i64::MAX`; the reverse
sequence yields `v, v-1, ...` but terminates one step early: it returns no
value at the call where the decremented internal counter equals `i64::MIN`,
so `i64::MIN + 1` and `i64::MIN` are never produced. -/
theorem iter_sequences (v : Int) (h1 : minI64 ≤ v) (h2 : v ≤ maxI64) :
    (∀ k : Nat, fwdOut v k = if maxI64 ≤ v + k then none else some (v + k)) ∧
    (∀ k : Nat, minI64 + 1 < v - k → revOut v k = some (v - k)) ∧
    (∀ k : Nat, v - k = minI64 + 1 → revOut v k = none) := by
  refine ⟨?_, ?_, ?_⟩
  · intro k
    unfold fwdOut
    rw [fwdState_eq v h1 h2 k]
    unfold tickIterNext
    rcases le_or_lt maxI64 (v + (k : Int)) with hge | hlt
    · rw [if_pos (by omega), if_pos hge]
    · rw [if_neg (by omega), if_neg (by omega)]
      have : min (v + (k : Int)) maxI64 = v + (k : Int) := by omega
      rw [this]
  · intro k hk
    unfold revOut
    rw [revState_eq v h2 k (by omega)]
    unfold tickRevIterNext
    show (if wrap64 (v - (k : Int) - 1) = minI64 then _
      else ((some (v - (k : Int)) : Option Int), wrap64 (v - (k : Int) - 1))).1
        = some (v - (k : Int))
    rw [wrap64_eq (by omega) (by omega), if_neg (by omega)]
  · intro k hk
    unfold revOut
    rw [revState_eq v h2 k (by omega)]
    unfold tickRevIterNext
    show (if wrap64 (v - (k : Int) - 1) = minI64 then ((none : Option Int), _)
      else (some (v - (k : Int)), wrap64 (v - (k : Int) - 1))).1 = none
    rw [wrap64_eq (by omega) (by omega), if_pos (by omega)]

/-- C8 witness: from tick 0, the forward sequence's first item is 0 and the
reverse sequence's third item is −2. -/
theorem iter_sequences_witness :
    fwdOut 0 0 = some 0 ∧ revOut 0 2 = some (-2) := by
  have h := iter_sequences 0 (by decide) (by decide)
  constructor
  · have h0 := h.1 0
    rw [if_neg (by decide)] at h0
    simpa using h0
  · have h1 := h.2.1 2 (by decide)
    simpa using h1

/-- C10: from a starting value above `i64::MIN`, the first `next_back` item
is `v - 1`; no `next_back` call ever produces the starting value itself;
and `next_back` returns no value once the internal position is `i64::MIN`. -/
theorem next_back_spec (v : Int) (h1 : minI64 < v) (h2 : v ≤ maxI64) :
    backOut v 0 = some (v - 1) ∧
    (∀ k : Nat, backOut v k ≠ some v) ∧
    (tickIterNextBack minI64).1 = none := by
  refine ⟨?_, ?_, by decide⟩
  · unfold backOut backState tickIterNextBack
    rw [if_neg (by omega), wrap64_eq (by omega) (by omega)]
  · intro k
    unfold backOut
    rw [backState_eq v h1.le h2 k]
    unfold tickIterNextBack
    rcases le_or_lt (v - (k : Int)) minI64 with hle | hgt
    · rw [if_pos (by omega)]
      simp
    · rw [if_neg (by omega), wrap64_eq (by omega) (by omega)]
      have hmax : max (v - (k : Int)) minI64 = v - (k : Int) := by omega
      rw [hmax]
      intro hcontra
      have := Option.some.inj hcontra
      omega

/-- C10 witness: from tick 5 the first `next_back` item is 4, and the
fourth call does not produce 5. -/
theorem next_back_spec_witness :
    backOut 5 0 = some 4 ∧ backOut 5 3 ≠ some 5 := by
  have h := next_back_spec 5 (by decide) (by decide)
  exact ⟨by simpa using h.1, h.2.1 3⟩

end FrameTick
